import Mathlib

/-!
# Verification of the OG-Tool crawl-and-extraction engine

Shallow embedding of the crawl engine found in
`supabase/functions/web-scraper/index.ts` (class `ServerScraper`) and
`src/utils/ScrapingEngine.ts` (class `ScrapingEngine`).

Pure string heuristics (regex pattern tables, the content-type rule chain,
the rolling hash) are translated directly.  Effectful collaborators (HTTP
fetch, the DOM parser, URL resolution/parsing, the regex text-cleaning
chain of the browser engine) are modelled as oracle fields of a `World`
structure; the control flow that consumes them is translated from the
source.  Machine integers (the JavaScript 32-bit hash) are modelled as
`Int` with explicit reduction modulo `2 ^ 32`.
-/

set_option autoImplicit false

namespace OGTool

/-- JavaScript core whitespace characters recognised by the `\s` regex
class (space, tab, newline, carriage return, vertical tab, form feed). -/
def isJsSpace (c : Char) : Bool :=
  c == ' ' || c == '\t' || c == '\n' || c == '\r' || c.toNat == 11 || c.toNat == 12

/-- JavaScript `String.prototype.toLowerCase` (ASCII case folding, which
is all the crawl heuristics rely on). -/
def strToLower (s : String) : String :=
  String.mk (s.data.map Char.toLower)

/-- Substring test: JavaScript `String.prototype.includes`. -/
def strContains (s pat : String) : Bool :=
  s.data.tails.any (fun t => pat.data.isPrefixOf t)

/-- Suffix test: JavaScript `String.prototype.endsWith`. -/
def strEndsWith (s suf : String) : Bool :=
  suf.data.isSuffixOf s.data

theorem dropWhile_length_le (p : Char → Bool) (l : List Char) :
    (l.dropWhile p).length ≤ l.length := by
  induction l with
  | nil => simp [List.dropWhile]
  | cons c rest ih =>
    simp only [List.dropWhile]
    split
    · exact Nat.le_succ_of_le ih
    · exact Nat.le_refl _

/-- Helper of `squashRuns`: `inRun` records whether the previous character
belonged to a run of characters satisfying `p`. -/
def squashRunsAux (p : Char → Bool) (rep : Char) : Bool → List Char → List Char
  | _, [] => []
  | inRun, c :: rest =>
    if p c then
      if inRun then squashRunsAux p rep true rest
      else rep :: squashRunsAux p rep true rest
    else c :: squashRunsAux p rep false rest

/-- Collapse every maximal run of characters satisfying `p` into the single
character `rep`.  `squashRuns isJsSpace ' '` is JavaScript
`replace(/\s+/g, ' ')`; `squashRuns (· == newline) newline` is
`replace(/\n+/g, newline)`. -/
def squashRuns (p : Char → Bool) (rep : Char) (l : List Char) : List Char :=
  squashRunsAux p rep false l

/-- Strip leading and trailing JavaScript whitespace from a character list
(JavaScript `String.prototype.trim`). -/
def trimChars (l : List Char) : List Char :=
  ((l.dropWhile isJsSpace).reverse.dropWhile isJsSpace).reverse

/-- JavaScript `String.prototype.trim`. -/
def jsTrim (s : String) : String :=
  String.mk (trimChars s.data)

/-- `cleanTextContent` (identical in both scraper classes):
`text.replace(/\s+/g, ' ').replace(/\n+/g, '\n').trim()`. -/
def cleanTextContent (s : String) : String :=
  String.mk (trimChars (squashRuns (fun c => c == '\n') '\n'
    (squashRuns isJsSpace ' ' s.data)))

/-- JavaScript `String.prototype.slice(0, n)` on a string value. -/
def strTake (s : String) (n : Nat) : String :=
  String.mk (s.data.take n)

/-- Helper of `dedupFirst`: `seen` holds the elements already emitted. -/
def dedupFirstAux (seen : List String) : List String → List String
  | [] => []
  | x :: rest =>
    if x ∈ seen then dedupFirstAux seen rest
    else x :: dedupFirstAux (x :: seen) rest

/-- `[...new Set(links)]`: deduplicate, keeping the first occurrence of
each element in insertion order. -/
def dedupFirst (l : List String) : List String :=
  dedupFirstAux [] l

theorem mem_dedupFirstAux {u : String} :
    ∀ {l seen : List String}, u ∈ dedupFirstAux seen l → u ∈ l := by
  intro l
  induction l with
  | nil => intro seen h; exact absurd h (by simp [dedupFirstAux])
  | cons x rest ih =>
    intro seen h
    rw [dedupFirstAux] at h
    split at h
    · exact List.mem_cons_of_mem _ (ih h)
    · rcases List.mem_cons.mp h with h | h
      · exact h ▸ List.mem_cons_self _ _
      · exact List.mem_cons_of_mem _ (ih h)

theorem mem_dedupFirst {u : String} {l : List String} (h : u ∈ dedupFirst l) :
    u ∈ l :=
  mem_dedupFirstAux h

/-! ## Author identity hash (`generateUserId`, identical in both classes) -/

/-- JavaScript `ToInt32`: reduce an integer modulo `2 ^ 32` into the
signed range `[-2 ^ 31, 2 ^ 31)`. -/
def toInt32 (n : Int) : Int :=
  let m := n % 4294967296
  if m < 2147483648 then m else m - 4294967296

/-- One step of the hash loop in `generateUserId`:
`hash = ((hash << 5) - hash) + char; hash = hash & hash;`.
In JavaScript `hash << 5` truncates to a signed 32-bit integer
(`toInt32 (h * 32)`), the subtraction and addition are exact, and
`hash & hash` truncates the sum to a signed 32-bit integer. -/
def jsHashStep (h : Int) (c : Nat) : Int :=
  toInt32 (toInt32 (h * 32) - h + c)

/-- `generateUserId(author)`: the rolling hash over the author string's
character codes, rendered as `user_` followed by `Math.abs(hash)`. -/
def generateUserId (author : String) : String :=
  "user_" ++ toString (author.data.foldl (fun h c => jsHashStep h c.toNat) 0).natAbs

/-- Modelled from the spec: one step of the reference hash,
`hash = hash * 31 + charCode`, truncated to a signed 32-bit integer at
each step. -/
def specHashStep (h : Int) (c : Nat) : Int :=
  toInt32 (h * 31 + c)

/-- Modelled from the spec: `deriveIdentity(author)`, the reference
definition of the identity hash (`hash * 31 + charCode` truncated to 32
bits at each step, rendered as an absolute-value decimal string prefixed
`user_`). -/
def deriveIdentitySpec (author : String) : String :=
  "user_" ++ toString (author.data.foldl (fun h c => specHashStep h c.toNat) 0).natAbs

theorem toInt32_emod (a : Int) : toInt32 a % 4294967296 = a % 4294967296 := by
  unfold toInt32
  simp only []
  split <;> omega

theorem toInt32_congr {a b : Int} (h : a % 4294967296 = b % 4294967296) :
    toInt32 a = toInt32 b := by
  unfold toInt32
  rw [h]

theorem jsHashStep_eq_specHashStep (h : Int) (c : Nat) :
    jsHashStep h c = specHashStep h c := by
  unfold jsHashStep specHashStep
  apply toInt32_congr
  have h32 : toInt32 (h * 32) % 4294967296 = (h * 32) % 4294967296 := toInt32_emod _
  omega

/-! ## Content-type classification (`detectContentType`, identical in both
classes) -/

/-- `detectContentType(title, content, url)`: the fixed if-chain over the
lowercased title, content and URL. -/
def detectContentType (title content url : String) : String :=
  let lowerTitle := strToLower title
  let lowerContent := strToLower content
  let lowerUrl := strToLower url
  if strContains lowerUrl "/blog/" || strContains lowerTitle "blog" then "blog"
  else if strContains lowerUrl "/docs/" || strContains lowerTitle "documentation" then "documentation"
  else if strContains lowerUrl "/article/" || strContains lowerTitle "article" then "article"
  else if strContains lowerUrl "/guide/" || strContains lowerTitle "guide" then "guide"
  else if strContains lowerContent "transcript" then "transcript"
  else if strContains lowerUrl "/podcast/" then "podcast_transcript"
  else "other"

/-- Modelled from the spec: the ordered content-type rule list.  Each rule
is a predicate over the lowercased (title, content, url) triple, paired
with the label it yields. -/
def ctRules : List ((String × String × String → Bool) × String) :=
  [ (fun p => strContains p.2.2 "/blog/" || strContains p.1 "blog", "blog"),
    (fun p => strContains p.2.2 "/docs/" || strContains p.1 "documentation", "documentation"),
    (fun p => strContains p.2.2 "/article/" || strContains p.1 "article", "article"),
    (fun p => strContains p.2.2 "/guide/" || strContains p.1 "guide", "guide"),
    (fun p => strContains p.2.1 "transcript", "transcript"),
    (fun p => strContains p.2.2 "/podcast/", "podcast_transcript") ]

/-- Modelled from the spec: first-match-wins evaluation of an ordered rule
list, with a default label when no rule matches. -/
def firstMatch (dflt : String) (p : String × String × String) :
    List ((String × String × String → Bool) × String) → String
  | [] => dflt
  | r :: rest => if r.1 p then r.2 else firstMatch dflt p rest

/-- Modelled from the spec: content-type classification as a first-match
priority list over the lowercased inputs. -/
def detectContentTypeSpec (title content url : String) : String :=
  firstMatch "other" (strToLower title, strToLower content, strToLower url) ctRules

/-! ## URL shape patterns

Each JavaScript regex from the source pattern tables is translated into an
executable predicate on strings.  `RegExp.test` searches for a match
anywhere in the string, so unanchored patterns become scans over
`List.tails` and `$`-anchored patterns become suffix decompositions. -/

/-- True when the pattern `root` occurs in `s` immediately followed by a
decimal digit: the regex `root\d+` tested anywhere (used for
`/\/blog\/page\/\d+/`). -/
def containsRootDigit (root : String) (s : String) : Bool :=
  s.data.tails.any (fun t =>
    root.data.isPrefixOf t &&
      (match t.drop root.data.length with
       | c :: _ => c.isDigit
       | [] => false))

/-- True when the pattern `root` occurs in `s` immediately followed by a
character other than a slash: the regex `root[^\/]+` tested anywhere
(used for `/\/article\/[^\/]+/` and `/\/post\/[^\/]+/`). -/
def containsRootSeg (root : String) (s : String) : Bool :=
  s.data.tails.any (fun t =>
    root.data.isPrefixOf t &&
      (match t.drop root.data.length with
       | c :: _ => c != '/'
       | [] => false))

/-- The regex `/\/blog\/\d{4}\/\d{2}\/[^\/]+/` tested anywhere in `s`. -/
def blogDatePattern (s : String) : Bool :=
  s.data.tails.any (fun t =>
    "/blog/".data.isPrefixOf t &&
      (match t.drop 6 with
       | a :: b :: c :: d :: '/' :: e :: f :: '/' :: g :: _ =>
         a.isDigit && b.isDigit && c.isDigit && d.isDigit &&
           e.isDigit && f.isDigit && g != '/'
       | _ => false))

/-- The `$`-anchored regex `root[^\/]+\/?$` (with `root` such as
`/blog/`): `s` ends with `root`, then a nonempty slash-free segment, then
an optional trailing slash. -/
def rootSlugEnd (root : String) (s : String) : Bool :=
  let r := s.data.reverse
  let r' := match r with
    | '/' :: rest => rest
    | _ => r
  let seg := r'.takeWhile (fun c => c != '/')
  decide (seg ≠ []) && root.data.reverse.isPrefixOf (r'.drop seg.length)

/-- The `$`-anchored regex `/\/[^\/]+\/$/`: `s` ends with a slash, a
nonempty slash-free segment, and a preceding slash. -/
def singleSegSlashEnd (s : String) : Bool :=
  match s.data.reverse with
  | '/' :: rest =>
    let seg := rest.takeWhile (fun c => c != '/')
    decide (seg ≠ []) &&
      (match rest.drop seg.length with
       | '/' :: _ => true
       | _ => false)
  | _ => false

/-- The `$`-anchored regex `root\/?$`: `s` ends with `root` or with
`root` followed by a slash (used for `/\/blog\/?$/` and friends). -/
def rootEnd (root : String) (s : String) : Bool :=
  strEndsWith s root || strEndsWith s (root ++ "/")

/-- `ServerScraper.isBlogListingPage(url)`: the five listing-shape
patterns tested against the lowercased URL. -/
def isBlogListingPage (url : String) : Bool :=
  let lowerUrl := strToLower url
  rootEnd "/blog" lowerUrl ||
    containsRootDigit "/blog/page/" lowerUrl ||
    rootEnd "/articles" lowerUrl ||
    rootEnd "/posts" lowerUrl ||
    rootEnd "/news" lowerUrl

/-- The `articlePatterns` table of `ServerScraper.isIndividualArticleLink`,
tested against the lowercased URL. -/
def articlePatternHit (lowerUrl : String) : Bool :=
  rootSlugEnd "/blog/" lowerUrl ||
    blogDatePattern lowerUrl ||
    containsRootSeg "/article/" lowerUrl ||
    containsRootSeg "/post/" lowerUrl ||
    singleSegSlashEnd lowerUrl

/-- The `readMoreTexts` table of `ServerScraper.isIndividualArticleLink`. -/
def readMoreTexts : List String :=
  ["read more", "continue reading", "full article", "read full",
   "learn more", "view post", "read article", "more details", "read story"]

/-- The `excludePatterns` table of `ServerScraper.isIndividualArticleLink`,
tested against the lowercased URL. -/
def excludeArticleHit (lowerUrl : String) : Bool :=
  strEndsWith lowerUrl ".jpg" || strEndsWith lowerUrl ".jpeg" ||
    strEndsWith lowerUrl ".png" || strEndsWith lowerUrl ".gif" ||
    strEndsWith lowerUrl ".svg" || strEndsWith lowerUrl ".pdf" ||
    strContains lowerUrl "/tag/" || strContains lowerUrl "/category/" ||
    strContains lowerUrl "/author/" || strContains lowerUrl "/search" ||
    strContains lowerUrl "/login" || strContains lowerUrl "/register" ||
    strContains lowerUrl "/contact" || strContains lowerUrl "/about" ||
    strContains lowerUrl "#"

/-- `ServerScraper.isIndividualArticleLink(url, linkText, currentUrl)`.
`hostOf` models `new URL(url).hostname` (`none` when the constructor
throws, caught by the surrounding `try`); `domain` is the seed URL's
hostname stored by the constructor. -/
def isIndividualArticleLink (hostOf : String → Option String)
    (domain url linkText : String) : Bool :=
  match hostOf url with
  | none => false
  | some host =>
    if host ≠ domain then false
    else
      let lowerUrl := strToLower url
      let lowerText := strToLower linkText
      let hasArticlePattern := articlePatternHit lowerUrl
      let isReadMoreLink := readMoreTexts.any (fun t => strContains lowerText t)
      if excludeArticleHit lowerUrl then false
      else hasArticlePattern || isReadMoreLink

/-- `isExcludedPath(url)` (identical table in both classes), tested
against the raw URL; only the file-extension pattern carries the `i`
flag. -/
def isExcludedPath (url : String) : Bool :=
  let lowerUrl := strToLower url
  strEndsWith lowerUrl ".jpg" || strEndsWith lowerUrl ".jpeg" ||
    strEndsWith lowerUrl ".png" || strEndsWith lowerUrl ".gif" ||
    strEndsWith lowerUrl ".svg" || strEndsWith lowerUrl ".pdf" ||
    strEndsWith lowerUrl ".doc" || strEndsWith lowerUrl ".docx" ||
    strEndsWith lowerUrl ".zip" || strEndsWith lowerUrl ".rar" ||
    strContains url "/api/" || strContains url "/admin/" ||
    strContains url "/login" || strContains url "/logout" ||
    strContains url "/register" || strContains url "/search" ||
    strContains url "/tag/" || strContains url "/category/" ||
    strContains url "#"

/-- `ScrapingEngine.isSameDomain(url)`: the URL's hostname equals the
crawl domain or ends with `"." + domain`.  `hostOf` models
`new URL(url).hostname` (`none` when the constructor throws, in which
case the method returns `false`). -/
def isSameDomain (hostOf : String → Option String) (domain url : String) : Bool :=
  match hostOf url with
  | some h => h == domain || strEndsWith h ("." ++ domain)
  | none => false

/-! ## Title regex of the browser engine

`ScrapingEngine.extractContent` reads the page title with
`html.match(/<title[^>]*>([^<]+)<\/title>/i)` and uses the first capture
group.  The matcher below reproduces that regex: a leftmost scan, greedy
character classes (exact here, since the follow-up literal is excluded
from each class), case-insensitive literals. -/

/-- Case-insensitive literal match of `pat` at the head of `l`. -/
def startsWithCI : List Char → List Char → Bool
  | [], _ => true
  | _ :: _, [] => false
  | p :: ps, c :: cs => (p.toLower == c.toLower) && startsWithCI ps cs

/-- Attempt `/<title[^>]*>([^<]+)<\/title>/i` at the head of `t`,
returning the capture group. -/
def titleMatchAt (t : List Char) : Option (List Char) :=
  if startsWithCI "<title".data t then
    let rest := t.drop 6
    let attrs := rest.takeWhile (fun c => c != '>')
    match rest.drop attrs.length with
    | '>' :: rest2 =>
      let cap := rest2.takeWhile (fun c => c != '<')
      if decide (cap ≠ []) && startsWithCI "</title>".data (rest2.drop cap.length) then
        some cap
      else none
    | _ => none
  else none

/-- Leftmost application of `titleMatchAt`. -/
def firstTitle : List Char → Option (List Char)
  | [] => none
  | c :: rest =>
    match titleMatchAt (c :: rest) with
    | some cap => some cap
    | none => firstTitle rest

/-- The text captured by the engine's title regex on `html`, when any. -/
def engineTitleOf (html : String) : Option String :=
  (firstTitle html.data).map String.mk

/-- The title string the engine derives from `html`:
`titleMatch ? titleMatch[1].trim() : 'Untitled'`. -/
def engineTitle (html : String) : String :=
  match engineTitleOf html with
  | some t => jsTrim t
  | none => "Untitled"

/-! ## Data model -/

/-- `ScrapedItem` (identical interface in both classes). -/
structure ScrapedItem where
  title : String
  content : String
  content_type : String
  source_url : String
  author : Option String
  user_id : Option String
deriving DecidableEq, Repr

/-- A frontier entry: one element of the `urlQueue` array. -/
structure Entry where
  url : String
  depth : Nat
deriving DecidableEq, Repr

/-- Observable events of one crawl run: `processed u d` records a dequeue
that passed the visited and depth checks (the entry is marked visited,
counted against `maxPages` and handed to the page-processing body);
`created u d` records a frontier entry pushed for a harvested link. -/
inductive Event where
  | processed (url : String) (depth : Nat)
  | created (url : String) (depth : Nat)
deriving DecidableEq, Repr

/-- The mutable crawl fields of either scraper class: `urlQueue`,
`visitedUrls`, `results` and the `processedCount` loop counter. -/
structure CrawlState where
  queue : List Entry
  visited : List String
  results : List ScrapedItem
  processed : Nat
deriving DecidableEq, Repr

/-- The crawl-relevant configuration fields.  `domain` is the hostname the
constructor derives from `targetUrl` via `new URL(config.targetUrl).hostname`. -/
structure Config where
  targetUrl : String
  maxPages : Nat
  maxDepth : Nat
  domain : String
deriving DecidableEq, Repr

/-- Projection selecting the URLs of `processed` events. -/
def processedUrl? : Event → Option String
  | Event.processed u _ => some u
  | Event.created _ _ => none

/-- URLs of the successful dequeues recorded in a trace, in order and with
multiplicity. -/
def processedUrls (tr : List Event) : List String :=
  tr.filterMap processedUrl?

/-! ## Server scraper (`supabase/functions/web-scraper/index.ts`) -/

/-- One anchor element returned by `doc.querySelectorAll('a[href]')`:
`href` models `link.getAttribute('href')` and `text` models
`link.textContent` (each `none` when the DOM returns null). -/
structure Anchor where
  href : Option String
  text : Option String

/-- The parse results `ServerScraper.extractContent` reads from the DOM of
one page: `titleText` is `querySelector('title')?.textContent`, `h1Text`
is `querySelector('h1')?.textContent`, `selTexts` holds
`querySelector(sel)?.textContent` for each entry of `contentSelectors` in
order (`none` when the selector finds no element), and `bodyText` is the
text of the body clone after the `unwantedSelectors` elements are removed
(`none` when the document has no body). -/
structure PageDoc where
  titleText : Option String
  h1Text : Option String
  selTexts : List (Option String)
  bodyText : Option String

/-- Oracle for the effectful collaborators of `ServerScraper`.
`fetchHtml` models the `fetch` call (`some html` when `response.ok`,
`none` on a non-2xx status or a thrown network error); `parseAnchors` and
`parseDoc` model `DOMParser.parseFromString` (`none` when it returns no
document); `resolve` models `new URL(href, baseUrl).href`; `hostOf`
models `new URL(url).hostname` (`none` when the constructor throws);
`authorOf` models the `extractAuthor` regex chain over the raw HTML. -/
structure ServerWorld where
  fetchHtml : String → Option String
  parseAnchors : String → Option (List Anchor)
  parseDoc : String → Option PageDoc
  resolve : String → String → Option String
  hostOf : String → Option String
  authorOf : String → Option String

/-- The per-anchor body of the `forEach` in
`ServerScraper.extractArticleLinks`: read `href`, skip falsy values,
resolve against `baseUrl` (a thrown URL error skips the anchor), keep the
absolute URL when `isIndividualArticleLink` accepts it.  The link text is
`link.textContent?.toLowerCase() || ''`. -/
def articleLinkOf (w : ServerWorld) (domain baseUrl : String) (a : Anchor) :
    Option String :=
  match a.href with
  | none => none
  | some href =>
    if href = "" then none
    else
      match w.resolve href baseUrl with
      | none => none
      | some absoluteUrl =>
        let linkText := match a.text with
          | some t => strToLower t
          | none => ""
        if isIndividualArticleLink w.hostOf domain absoluteUrl linkText then
          some absoluteUrl
        else none

/-- `ServerScraper.extractArticleLinks(html, baseUrl)`: collect the
accepted anchors in document order and deduplicate
(`[...new Set(links)]`). -/
def extractArticleLinks (w : ServerWorld) (domain html baseUrl : String) :
    List String :=
  match w.parseAnchors html with
  | none => []
  | some anchors => dedupFirst (anchors.filterMap (articleLinkOf w domain baseUrl))

/-- The title logic of `ServerScraper.extractContent`:
`let title = titleElement?.textContent?.trim() || 'Untitled'` followed by
`if (h1Element?.textContent?.trim()) title = h1Element.textContent.trim()`. -/
def extractTitleServer (doc : PageDoc) : String :=
  let base := match doc.titleText with
    | some t => if jsTrim t = "" then "Untitled" else jsTrim t
    | none => "Untitled"
  match doc.h1Text with
  | some h => if jsTrim h = "" then base else jsTrim h
  | none => base

/-- Strategy 1 of `ServerScraper.extractContent`: walk the
`contentSelectors` list; for each selector whose element exists, clean its
text and stop successfully when the cleaned text exceeds 200 characters.
The running `content` value is overwritten by every found element, even a
short one, exactly as in the source loop. -/
def strategy1 : List (Option String) → String → String × Bool
  | [], content => (content, false)
  | none :: rest, content => strategy1 rest content
  | some t :: rest, _content =>
    let c := cleanTextContent t
    if c.length > 200 then (c, true) else strategy1 rest c

/-- The final `content` string of `ServerScraper.extractContent` before
the length check: strategy 1 over the selector list, else the cleaned
stripped body text (strategy 2) when a body exists. -/
def serverContentOf (doc : PageDoc) : String :=
  let r := strategy1 doc.selTexts ""
  if r.2 then r.1
  else
    match doc.bodyText with
    | some bt => cleanTextContent bt
    | none => r.1

/-- `ServerScraper.extractContent(html, url)`: parse, extract title and
content, reject when the content is shorter than 500 characters, else
build the item with the content sliced to 10000 characters. -/
def extractContentServer (w : ServerWorld) (html url : String) :
    Option ScrapedItem :=
  match w.parseDoc html with
  | none => none
  | some doc =>
    let title := extractTitleServer doc
    let content := serverContentOf doc
    if content.length < 500 then none
    else
      let author := w.authorOf html
      some { title := title
             content := strTake content 10000
             content_type := detectContentType title content url
             source_url := url
             author := author
             user_id := author.map generateUserId }

/-- The per-link body of the `forEach` over the harvested article links in
`ServerScraper.scrape`: when the link is not yet visited, `unshift` it
onto the queue with depth 1 and record the creation. -/
def serverPush (p : CrawlState × List Event) (link : String) :
    CrawlState × List Event :=
  if link ∈ p.1.visited then p
  else ({ p.1 with queue := { url := link, depth := 1 } :: p.1.queue },
        p.2 ++ [Event.created link 1])

/-- The `try` body of one `ServerScraper.scrape` iteration after the entry
is marked visited and counted: fetch, then either harvest a listing page
(priority-enqueue the article links) or extract content from an article
page and append the item.  A failed fetch (`continue` on a non-2xx
response, or a caught exception) leaves the queue and results unchanged. -/
def serverBody (w : ServerWorld) (cfg : Config) (s : CrawlState)
    (url : String) (_depth : Nat) : CrawlState × List Event :=
  match w.fetchHtml url with
  | none => (s, [])
  | some html =>
    if isBlogListingPage url then
      (extractArticleLinks w cfg.domain html url).foldl serverPush (s, [])
    else
      match extractContentServer w html url with
      | some item => ({ s with results := s.results ++ [item] }, [])
      | none => (s, [])

/-! ## The crawl loop

`ServerScraper.scrape` and `ScrapingEngine.scrape` share the loop
verbatim: `while (urlQueue.length > 0 && processedCount < maxPages)`,
`shift` an entry, `continue` when it is visited or too deep, else mark it
visited, count it and run the page-processing body.  `crawlRun` is that
loop, parameterized by the body and driven by explicit fuel; it returns
the final state and the trace of events. -/
/-- The state after `urlQueue.shift()`: the dequeued entry is gone. -/
def shiftState (s : CrawlState) (rest : List Entry) : CrawlState :=
  { s with queue := rest }

/-- The state after `this.visitedUrls.add(url); processedCount++;` for a
dequeued entry that passed the visited and depth checks. -/
def markVisited (s : CrawlState) (e : Entry) (rest : List Entry) : CrawlState :=
  { queue := rest, visited := e.url :: s.visited, results := s.results,
    processed := s.processed + 1 }

def crawlRun (body : CrawlState → String → Nat → CrawlState × List Event)
    (cap maxDepth : Nat) : Nat → CrawlState → CrawlState × List Event
  | 0, s => (s, [])
  | fuel + 1, s =>
    match s.queue with
    | [] => (s, [])
    | e :: rest =>
      if s.processed < cap then
        if e.url ∈ s.visited ∨ e.depth > maxDepth then
          crawlRun body cap maxDepth fuel (shiftState s rest)
        else
          let br := body (markVisited s e rest) e.url e.depth
          let cr := crawlRun body cap maxDepth fuel br.1
          (cr.1, Event.processed e.url e.depth :: (br.2 ++ cr.2))
      else (s, [])

/-- The initial crawl state: the queue is seeded with
`{ url: config.targetUrl, depth: 0 }`. -/
def initState (cfg : Config) : CrawlState :=
  { queue := [{ url := cfg.targetUrl, depth := 0 }], visited := [],
    results := [], processed := 0 }

/-- `ServerScraper.scrape()`: the crawl loop with the server body and the
page cap `Math.min(config.maxPages, 100)`. -/
def serverCrawl (w : ServerWorld) (cfg : Config) (fuel : Nat) :
    CrawlState × List Event :=
  crawlRun (serverBody w cfg) (min cfg.maxPages 100) cfg.maxDepth fuel
    (initState cfg)

/-! ## Browser engine (`src/utils/ScrapingEngine.ts`) -/

/-- Outcome of the direct `fetchWithTimeout` call in
`ScrapingEngine.scrapePage`: `ok html` when the response is 2xx, `notOk`
for a non-2xx response, `netErr` for a thrown network error or abort. -/
inductive DirectOutcome where
  | ok (html : String)
  | notOk
  | netErr
deriving DecidableEq, Repr

/-- Outcome of one proxy attempt: `okString body` when the response is 2xx
and `data.contents || data.data || data` is a string, `okOther` when the
response is 2xx but that value is not a string (or `json()` throws),
`notOk` and `netErr` as for the direct attempt. -/
inductive ProxyOutcome where
  | okString (body : String)
  | okOther
  | notOk
  | netErr
deriving DecidableEq, Repr

/-- How `ScrapingEngine.scrapePage` resolves the fetch for one URL:
`gotHtml` hands the HTML to `processPageContent`, `demo` substitutes the
demo item, `failed` throws (caught by the crawl loop). -/
inductive FetchResolution where
  | gotHtml (html : String)
  | demo
  | failed
deriving DecidableEq, Repr

/-- Oracle for the effectful collaborators of `ScrapingEngine`.
`direct url` models the direct `fetchWithTimeout(url, 10000)`;
`proxy p url` models `fetchWithTimeout(p + encodeURIComponent(url), 15000)`
for proxy prefix `p`; `hrefs html` lists the capture groups of the
`<a ... href="...">` regex over `html` in match order; `dataUrls html`
lists the `data-url="..."` capture groups; `resolve` and `hostOf` model
the `URL` constructor as for the server; `cleanedMarkdown html` models the
strip/clean/`htmlToMarkdown` chain of `extractContent`; `authorOf` models
the `extractAuthor` regex chain. -/
structure EngineWorld where
  direct : String → DirectOutcome
  proxy : String → String → ProxyOutcome
  hrefs : String → List String
  dataUrls : String → List String
  resolve : String → String → Option String
  hostOf : String → Option String
  cleanedMarkdown : String → String
  authorOf : String → Option String

/-- The `corsProxies` list of `ScrapingEngine`. -/
def corsProxies : List String :=
  ["https://api.allorigins.win/get?url=",
   "https://corsproxy.io/?",
   "https://cors-anywhere.herokuapp.com/"]

/-- One proxy attempt of `ScrapingEngine.scrapePage`: usable HTML is a 2xx
response whose extracted value is a string longer than 100 characters. -/
def proxyHtml? (w : EngineWorld) (url proxy : String) : Option String :=
  match w.proxy proxy url with
  | ProxyOutcome.okString body => if body.length > 100 then some body else none
  | _ => none

/-- The `for (const proxy of this.corsProxies)` loop: the first proxy that
yields usable HTML wins. -/
def firstProxyHtml (w : EngineWorld) (url : String) :
    List String → Option String
  | [] => none
  | p :: rest =>
    match proxyHtml? w url p with
    | some h => some h
    | none => firstProxyHtml w url rest

/-- The fetch-resolution logic of `ScrapingEngine.scrapePage(url, depth)`:
direct fetch first, then the ordered proxy list, then — when everything
failed — the demo substitution for the seed (depth 0, no results yet) or
a thrown error. -/
def resolveFetch (w : EngineWorld) (url : String) (depth : Nat)
    (resultsEmpty : Bool) : FetchResolution :=
  match w.direct url with
  | DirectOutcome.ok html => FetchResolution.gotHtml html
  | _ =>
    match firstProxyHtml w url corsProxies with
    | some html => FetchResolution.gotHtml html
    | none =>
      if depth = 0 ∧ resultsEmpty = true then FetchResolution.demo
      else FetchResolution.failed

/-- `ScrapingEngine.extractContent(html, url)`: title from the title
regex, content from the cleaning chain, reject below 100 characters, else
build the item with the uncapped cleaned content. -/
def extractContentEngine (w : EngineWorld) (html url : String) :
    Option ScrapedItem :=
  let title := engineTitle html
  let markdownContent := w.cleanedMarkdown html
  if markdownContent.length < 100 then none
  else
    let author := w.authorOf html
    some { title := title
           content := markdownContent
           content_type := detectContentType title markdownContent url
           source_url := url
           author := author
           user_id := author.map generateUserId }

/-- `ScrapingEngine.extractLinks(html, baseUrl, depth)`: resolve each href
capture (a thrown URL error skips it), keep same-domain non-excluded
links, append the `data-url` dynamic links (same-domain only), and
deduplicate. -/
def extractLinksEngine (w : EngineWorld) (domain html baseUrl : String) :
    List String :=
  let base := (w.hrefs html).filterMap (fun href =>
    match w.resolve href baseUrl with
    | none => none
    | some absoluteUrl =>
      if isSameDomain w.hostOf domain absoluteUrl && !isExcludedPath absoluteUrl then
        some absoluteUrl
      else none)
  let dyn := (w.dataUrls html).filterMap (fun du =>
    match w.resolve du baseUrl with
    | none => none
    | some u2 => if isSameDomain w.hostOf domain u2 then some u2 else none)
  dedupFirst (base ++ dyn)

/-- The fixed markdown body of `ScrapingEngine.createDemoContent`, up to
the interpolated target URL and domain. -/
def demoTemplate : String :=
  "# Web Scraping Demo\n\nThis is a demonstration of the scraper's output format. " ++
  "The actual website content could not be fetched due to CORS (Cross-Origin " ++
  "Resource Sharing) restrictions in the browser environment.\n\n" ++
  "## Recommended Solutions:\n\n" ++
  "1. **Deploy to Server**: For production use, deploy this scraper to a Node.js " ++
  "server where CORS restrictions don't apply.\n\n" ++
  "2. **Use Browser Extension**: Create a browser extension that can bypass CORS " ++
  "restrictions.\n\n" ++
  "3. **API Integration**: Use a web scraping API service like ScrapingBee, " ++
  "Scraperapi, or similar.\n\n" ++
  "4. **Headless Browser**: Use Puppeteer or Playwright in a server environment.\n\n" ++
  "## Expected Output Format:\n" ++
  "- **Title**: Page title extracted from HTML\n" ++
  "- **Content**: Clean markdown content without navigation/ads\n" ++
  "- **Content Type**: Automatically detected (blog, documentation, article, etc.)\n" ++
  "- **Source URL**: Original page URL\n" ++
  "- **Author**: Extracted from meta tags or content\n" ++
  "- **User ID**: Generated hash based on author name\n\n" ++
  "Target URL: "

/-- `ScrapingEngine.createDemoContent(url)`. -/
def demoItem (domain url : String) : ScrapedItem :=
  { title := "Demo Content - CORS Limitation Detected"
    content := demoTemplate ++ url ++ "\nDomain: " ++ domain
    content_type := "documentation"
    source_url := url
    author := some "Web Scraper Demo"
    user_id := some "demo_user_123" }

/-- The per-link push of `ScrapingEngine.processPageContent`: tail-enqueue
a harvested link at `depth + 1` when it is unvisited and same-domain. -/
def enginePush (hostOf : String → Option String) (domain : String)
    (depth : Nat) (p : CrawlState × List Event) (link : String) :
    CrawlState × List Event :=
  if link ∉ p.1.visited ∧ isSameDomain hostOf domain link = true then
    ({ p.1 with queue := p.1.queue ++ [{ url := link, depth := depth + 1 }] },
     p.2 ++ [Event.created link (depth + 1)])
  else p

/-- The `try` body of one `ScrapingEngine.scrape` iteration after the
entry is marked visited and counted: `scrapePage`, which resolves the
fetch, and on HTML runs `processPageContent` (extract content, harvest
and tail-enqueue links, return the item for the loop to append).  The
demo substitution appends the demo item; a thrown error (all fetch
strategies failed on a non-seed entry) is caught by the loop and changes
nothing. -/
def engineBody (w : EngineWorld) (cfg : Config) (s : CrawlState)
    (url : String) (depth : Nat) : CrawlState × List Event :=
  match resolveFetch w url depth s.results.isEmpty with
  | FetchResolution.gotHtml html =>
    let content := extractContentEngine w html url
    let links := extractLinksEngine w cfg.domain html url
    let p := links.foldl (enginePush w.hostOf cfg.domain depth) (s, [])
    match content with
    | some item => ({ p.1 with results := p.1.results ++ [item] }, p.2)
    | none => p
  | FetchResolution.demo =>
    ({ s with results := s.results ++ [demoItem cfg.domain url] }, [])
  | FetchResolution.failed => (s, [])

/-- `ScrapingEngine.scrape()`: the crawl loop with the engine body and the
page cap `Math.min(config.maxPages, 1000)`. -/
def engineCrawl (w : EngineWorld) (cfg : Config) (fuel : Nat) :
    CrawlState × List Event :=
  crawlRun (engineBody w cfg) (min cfg.maxPages 1000) cfg.maxDepth fuel
    (initState cfg)

/-! ## Helper lemmas about traces and pushes -/

theorem mem_processedUrls {u : String} {d : Nat} {tr : List Event}
    (h : Event.processed u d ∈ tr) : u ∈ processedUrls tr :=
  List.mem_filterMap.mpr ⟨Event.processed u d, h, rfl⟩

theorem processedUrls_append (a b : List Event) :
    processedUrls (a ++ b) = processedUrls a ++ processedUrls b :=
  List.filterMap_append a b processedUrl?

theorem serverPush_visited (p : CrawlState × List Event) (link : String) :
    (serverPush p link).1.visited = p.1.visited := by
  unfold serverPush
  split <;> rfl

theorem serverPush_processed (p : CrawlState × List Event) (link : String) :
    (serverPush p link).1.processed = p.1.processed := by
  unfold serverPush
  split <;> rfl

theorem serverPush_processedUrls (p : CrawlState × List Event) (link : String) :
    processedUrls (serverPush p link).2 = processedUrls p.2 := by
  unfold serverPush
  split
  · rfl
  · simp [processedUrls_append, processedUrls, processedUrl?]

theorem serverPush_foldl_visited (links : List String) (p : CrawlState × List Event) :
    ((links.foldl serverPush p).1).visited = p.1.visited := by
  induction links generalizing p with
  | nil => rfl
  | cons l rest ih => rw [List.foldl_cons, ih, serverPush_visited]

theorem serverPush_foldl_processed (links : List String) (p : CrawlState × List Event) :
    ((links.foldl serverPush p).1).processed = p.1.processed := by
  induction links generalizing p with
  | nil => rfl
  | cons l rest ih => rw [List.foldl_cons, ih, serverPush_processed]

theorem serverPush_foldl_processedUrls (links : List String) (p : CrawlState × List Event) :
    processedUrls (links.foldl serverPush p).2 = processedUrls p.2 := by
  induction links generalizing p with
  | nil => rfl
  | cons l rest ih => rw [List.foldl_cons, ih, serverPush_processedUrls]

theorem serverPush_foldl_events (links : List String) (p : CrawlState × List Event)
    (ev : Event) (h : ev ∈ (links.foldl serverPush p).2) :
    ev ∈ p.2 ∨ ∃ link, link ∈ links ∧ ev = Event.created link 1 := by
  induction links generalizing p with
  | nil => exact Or.inl h
  | cons l rest ih =>
    rw [List.foldl_cons] at h
    rcases ih (serverPush p l) h with h' | ⟨link, hl, he⟩
    · unfold serverPush at h'
      split at h'
      · exact Or.inl h'
      · rcases List.mem_append.mp h' with h' | h'
        · exact Or.inl h'
        · exact Or.inr ⟨l, List.mem_cons_self _ _, List.mem_singleton.mp h'⟩
    · exact Or.inr ⟨link, List.mem_cons_of_mem _ hl, he⟩

theorem enginePush_visited (hostOf : String → Option String) (domain : String)
    (depth : Nat) (p : CrawlState × List Event) (link : String) :
    (enginePush hostOf domain depth p link).1.visited = p.1.visited := by
  unfold enginePush
  split <;> rfl

theorem enginePush_processed (hostOf : String → Option String) (domain : String)
    (depth : Nat) (p : CrawlState × List Event) (link : String) :
    (enginePush hostOf domain depth p link).1.processed = p.1.processed := by
  unfold enginePush
  split <;> rfl

theorem enginePush_processedUrls (hostOf : String → Option String) (domain : String)
    (depth : Nat) (p : CrawlState × List Event) (link : String) :
    processedUrls (enginePush hostOf domain depth p link).2 = processedUrls p.2 := by
  unfold enginePush
  split
  · simp [processedUrls_append, processedUrls, processedUrl?]
  · rfl

theorem enginePush_foldl_visited (hostOf : String → Option String) (domain : String)
    (depth : Nat) (links : List String) (p : CrawlState × List Event) :
    ((links.foldl (enginePush hostOf domain depth) p).1).visited = p.1.visited := by
  induction links generalizing p with
  | nil => rfl
  | cons l rest ih => rw [List.foldl_cons, ih, enginePush_visited]

theorem enginePush_foldl_processed (hostOf : String → Option String) (domain : String)
    (depth : Nat) (links : List String) (p : CrawlState × List Event) :
    ((links.foldl (enginePush hostOf domain depth) p).1).processed = p.1.processed := by
  induction links generalizing p with
  | nil => rfl
  | cons l rest ih => rw [List.foldl_cons, ih, enginePush_processed]

theorem enginePush_foldl_processedUrls (hostOf : String → Option String) (domain : String)
    (depth : Nat) (links : List String) (p : CrawlState × List Event) :
    processedUrls (links.foldl (enginePush hostOf domain depth) p).2 = processedUrls p.2 := by
  induction links generalizing p with
  | nil => rfl
  | cons l rest ih => rw [List.foldl_cons, ih, enginePush_processedUrls]

theorem enginePush_foldl_events (hostOf : String → Option String) (domain : String)
    (depth : Nat) (links : List String) (p : CrawlState × List Event)
    (ev : Event) (h : ev ∈ (links.foldl (enginePush hostOf domain depth) p).2) :
    ev ∈ p.2 ∨ ∃ link, ev = Event.created link (depth + 1) ∧
      isSameDomain hostOf domain link = true := by
  induction links generalizing p with
  | nil => exact Or.inl h
  | cons l rest ih =>
    rw [List.foldl_cons] at h
    rcases ih (enginePush hostOf domain depth p l) h with h' | hr
    · unfold enginePush at h'
      split at h'
      next hcond =>
        rcases List.mem_append.mp h' with h' | h'
        · exact Or.inl h'
        · exact Or.inr ⟨l, List.mem_singleton.mp h', hcond.2⟩
      next => exact Or.inl h'
    · exact Or.inr hr

/-! ## Soundness of the link filters -/

theorem isIndividualArticleLink_host {hostOf : String → Option String}
    {domain url linkText : String}
    (h : isIndividualArticleLink hostOf domain url linkText = true) :
    hostOf url = some domain := by
  simp only [isIndividualArticleLink] at h
  split at h
  · exact absurd h (by simp)
  next host heq =>
    split at h
    · exact absurd h (by simp)
    next hne => exact heq.trans (congrArg some (not_not.mp hne))

theorem articleLinkOf_host {w : ServerWorld} {domain baseUrl : String}
    {a : Anchor} {u : String} (h : articleLinkOf w domain baseUrl a = some u) :
    w.hostOf u = some domain := by
  simp only [articleLinkOf] at h
  split at h
  · exact absurd h (by simp)
  · split at h
    · exact absurd h (by simp)
    · split at h
      · exact absurd h (by simp)
      · split at h
        next hacc =>
          injection h with h
          subst h
          exact isIndividualArticleLink_host hacc
        next => exact absurd h (by simp)

theorem extractArticleLinks_host {w : ServerWorld} {domain html baseUrl u : String}
    (h : u ∈ extractArticleLinks w domain html baseUrl) :
    w.hostOf u = some domain := by
  unfold extractArticleLinks at h
  split at h
  · exact absurd h (by simp)
  · have h2 := mem_dedupFirst h
    rcases List.mem_filterMap.mp h2 with ⟨a, _, ha⟩
    exact articleLinkOf_host ha

theorem isSameDomain_elim {hostOf : String → Option String} {domain url : String}
    (h : isSameDomain hostOf domain url = true) :
    ∃ hn, hostOf url = some hn ∧
      (hn = domain ∨ strEndsWith hn ("." ++ domain) = true) := by
  unfold isSameDomain at h
  cases hh : hostOf url with
  | none => rw [hh] at h; exact absurd h (by simp)
  | some hn =>
    rw [hh] at h
    have h2 : hn = domain ∨ strEndsWith hn ("." ++ domain) = true := by
      simpa using h
    rcases h2 with h2 | h2
    · exact ⟨hn, rfl, Or.inl h2⟩
    · exact ⟨hn, rfl, Or.inr h2⟩

/-! ## Body-level invariant lemmas -/

theorem serverBody_visited (w : ServerWorld) (cfg : Config) (s : CrawlState)
    (url : String) (d : Nat) : (serverBody w cfg s url d).1.visited = s.visited := by
  unfold serverBody
  split
  · rfl
  · split
    · exact serverPush_foldl_visited _ _
    · split <;> rfl

theorem serverBody_processed (w : ServerWorld) (cfg : Config) (s : CrawlState)
    (url : String) (d : Nat) : (serverBody w cfg s url d).1.processed = s.processed := by
  unfold serverBody
  split
  · rfl
  · split
    · exact serverPush_foldl_processed _ _
    · split <;> rfl

theorem serverBody_noProcessed (w : ServerWorld) (cfg : Config) (s : CrawlState)
    (url : String) (d : Nat) : processedUrls (serverBody w cfg s url d).2 = [] := by
  unfold serverBody
  split
  · rfl
  · split
    · exact serverPush_foldl_processedUrls _ _
    · split <;> rfl

theorem serverBody_created {w : ServerWorld} {cfg : Config} {s : CrawlState}
    {url : String} {d : Nat} {u : String} {du : Nat}
    (h : Event.created u du ∈ (serverBody w cfg s url d).2) :
    du = 1 ∧ w.hostOf u = some cfg.domain := by
  unfold serverBody at h
  split at h
  · exact absurd h (by simp)
  · split at h
    · rcases serverPush_foldl_events _ _ _ h with h' | ⟨link, hl, he⟩
      · exact absurd h' (by simp)
      · cases he
        exact ⟨rfl, extractArticleLinks_host hl⟩
    · split at h <;> exact absurd h (by simp)

theorem engineBody_visited (w : EngineWorld) (cfg : Config) (s : CrawlState)
    (url : String) (d : Nat) : (engineBody w cfg s url d).1.visited = s.visited := by
  simp only [engineBody]
  split
  · split
    · exact enginePush_foldl_visited _ _ _ _ _
    · exact enginePush_foldl_visited _ _ _ _ _
  · rfl
  · rfl

theorem engineBody_processed (w : EngineWorld) (cfg : Config) (s : CrawlState)
    (url : String) (d : Nat) : (engineBody w cfg s url d).1.processed = s.processed := by
  simp only [engineBody]
  split
  · split
    · exact enginePush_foldl_processed _ _ _ _ _
    · exact enginePush_foldl_processed _ _ _ _ _
  · rfl
  · rfl

theorem engineBody_noProcessed (w : EngineWorld) (cfg : Config) (s : CrawlState)
    (url : String) (d : Nat) : processedUrls (engineBody w cfg s url d).2 = [] := by
  simp only [engineBody]
  split
  · split
    · exact enginePush_foldl_processedUrls _ _ _ _ _
    · exact enginePush_foldl_processedUrls _ _ _ _ _
  · rfl
  · rfl

theorem engineBody_created {w : EngineWorld} {cfg : Config} {s : CrawlState}
    {url : String} {d : Nat} {u : String} {du : Nat}
    (h : Event.created u du ∈ (engineBody w cfg s url d).2) :
    isSameDomain w.hostOf cfg.domain u = true := by
  simp only [engineBody] at h
  split at h
  · split at h
    · rcases enginePush_foldl_events _ _ _ _ _ _ h with h' | ⟨link, he, hd⟩
      · exact absurd h' (by simp)
      · cases he; exact hd
    · rcases enginePush_foldl_events _ _ _ _ _ _ h with h' | ⟨link, he, hd⟩
      · exact absurd h' (by simp)
      · cases he; exact hd
  · exact absurd h (by simp)
  · exact absurd h (by simp)

/-! ## Generic invariants of the crawl loop -/

theorem shiftState_visited (s : CrawlState) (rest : List Entry) :
    (shiftState s rest).visited = s.visited := rfl

theorem markVisited_visited (s : CrawlState) (e : Entry) (rest : List Entry) :
    (markVisited s e rest).visited = e.url :: s.visited := rfl

section CrawlInvariants

variable (body : CrawlState → String → Nat → CrawlState × List Event)
variable (cap maxDepth : Nat)

theorem crawlRun_visited_sub
    (Hvis : ∀ s u d, (body s u d).1.visited = s.visited) :
    ∀ (fuel : Nat) (s : CrawlState),
      s.visited ⊆ (crawlRun body cap maxDepth fuel s).1.visited := by
  intro fuel
  induction fuel with
  | zero => intro s x hx; exact hx
  | succ n ih =>
    intro s
    simp only [crawlRun]
    split
    · exact fun x hx => hx
    next e rest hq =>
      split
      next hc =>
        split
        next hv => exact fun x hx => ih (shiftState s rest) hx
        next hv =>
          intro x hx
          refine ih _ ?_
          rw [Hvis, markVisited_visited]
          exact List.mem_cons_of_mem _ hx
      next hc => exact fun x hx => hx

theorem crawlRun_fresh_nodup
    (Hvis : ∀ s u d, (body s u d).1.visited = s.visited)
    (Hnp : ∀ s u d, processedUrls (body s u d).2 = []) :
    ∀ (fuel : Nat) (s : CrawlState),
      (∀ u, u ∈ processedUrls (crawlRun body cap maxDepth fuel s).2 → u ∉ s.visited) ∧
        (processedUrls (crawlRun body cap maxDepth fuel s).2).Nodup := by
  intro fuel
  induction fuel with
  | zero =>
    intro s
    exact ⟨fun u h => absurd h (by simp [crawlRun, processedUrls]),
      by simp [crawlRun, processedUrls]⟩
  | succ n ih =>
    intro s
    simp only [crawlRun]
    split
    · exact ⟨fun u h => absurd h (by simp [processedUrls]), by simp [processedUrls]⟩
    next e rest hq =>
      split
      next hc =>
        split
        next hv =>
          refine ⟨fun u hu => ?_, (ih (shiftState s rest)).2⟩
          exact (ih (shiftState s rest)).1 u hu
        next hv =>
          simp only [processedUrls, List.filterMap_cons, processedUrl?,
            List.filterMap_append]
          have hb := Hnp (markVisited s e rest) e.url e.depth
          simp only [processedUrls] at hb
          rw [hb, List.nil_append]
          have hrec := ih (body (markVisited s e rest) e.url e.depth).1
          have hvis1 : (body (markVisited s e rest) e.url e.depth).1.visited =
              e.url :: s.visited := by rw [Hvis, markVisited_visited]
          rw [hvis1] at hrec
          simp only [processedUrls] at hrec
          constructor
          · intro u hu
            rcases List.mem_cons.mp hu with hu | hu
            · subst hu
              intro hmem
              exact hv (Or.inl hmem)
            · have h2 := hrec.1 u hu
              exact fun hmem => h2 (List.mem_cons_of_mem _ hmem)
          · refine List.nodup_cons.mpr ⟨?_, hrec.2⟩
            intro hmem
            exact (hrec.1 e.url hmem) (List.mem_cons_self _ _)
      next hc =>
        exact ⟨fun u h => absurd h (by simp [processedUrls]), by simp [processedUrls]⟩

theorem crawlRun_processed_eq
    (Hproc : ∀ s u d, (body s u d).1.processed = s.processed)
    (Hnp : ∀ s u d, processedUrls (body s u d).2 = []) :
    ∀ (fuel : Nat) (s : CrawlState),
      (crawlRun body cap maxDepth fuel s).1.processed =
        s.processed + (processedUrls (crawlRun body cap maxDepth fuel s).2).length := by
  intro fuel
  induction fuel with
  | zero => intro s; simp [crawlRun, processedUrls]
  | succ n ih =>
    intro s
    simp only [crawlRun]
    split
    · simp [processedUrls]
    next e rest hq =>
      split
      next hc =>
        split
        next hv => exact ih (shiftState s rest)
        next hv =>
          simp only [processedUrls, List.filterMap_cons, processedUrl?,
            List.filterMap_append]
          have hb := Hnp (markVisited s e rest) e.url e.depth
          simp only [processedUrls] at hb
          rw [hb, List.nil_append]
          have hrec := ih (body (markVisited s e rest) e.url e.depth).1
          simp only [processedUrls] at hrec
          rw [hrec, Hproc]
          simp only [List.length_cons, markVisited]
          omega
      next hc => simp [processedUrls]

theorem crawlRun_cap
    (Hproc : ∀ s u d, (body s u d).1.processed = s.processed) :
    ∀ (fuel : Nat) (s : CrawlState), s.processed ≤ cap →
      (crawlRun body cap maxDepth fuel s).1.processed ≤ cap := by
  intro fuel
  induction fuel with
  | zero => intro s h; exact h
  | succ n ih =>
    intro s h
    simp only [crawlRun]
    split
    · exact h
    next e rest hq =>
      split
      next hc =>
        split
        next hv => exact ih (shiftState s rest) h
        next hv =>
          refine ih _ ?_
          rw [Hproc]
          exact hc
      next hc => exact h

theorem crawlRun_processed_depth
    (Hnp : ∀ s u d, processedUrls (body s u d).2 = []) :
    ∀ (fuel : Nat) (s : CrawlState) (u : String) (d : Nat),
      Event.processed u d ∈ (crawlRun body cap maxDepth fuel s).2 → d ≤ maxDepth := by
  intro fuel
  induction fuel with
  | zero => intro s u d h; exact absurd h (by simp [crawlRun])
  | succ n ih =>
    intro s u d
    simp only [crawlRun]
    split
    · intro h; exact absurd h (by simp)
    next e rest hq =>
      split
      next hc =>
        split
        next hv => exact ih (shiftState s rest) u d
        next hv =>
          intro h
          simp only [List.mem_cons, List.mem_append] at h
          rcases h with h | h | h
          · injection h with h1 h2
            subst h2
            push_neg at hv
            exact hv.2
          · exfalso
            have h2 : u ∈ processedUrls
                (body (markVisited s e rest) e.url e.depth).2 := mem_processedUrls h
            rw [Hnp] at h2
            exact absurd h2 (by simp)
          · exact ih _ u d h
      next hc => intro h; exact absurd h (by simp)

theorem crawlRun_created (P : String → Nat → Prop)
    (HbP : ∀ s u d u' d', Event.created u' d' ∈ (body s u d).2 → P u' d') :
    ∀ (fuel : Nat) (s : CrawlState) (u : String) (d : Nat),
      Event.created u d ∈ (crawlRun body cap maxDepth fuel s).2 → P u d := by
  intro fuel
  induction fuel with
  | zero => intro s u d h; exact absurd h (by simp [crawlRun])
  | succ n ih =>
    intro s u d
    simp only [crawlRun]
    split
    · intro h; exact absurd h (by simp)
    next e rest hq =>
      split
      next hc =>
        split
        next hv => exact ih (shiftState s rest) u d
        next hv =>
          intro h
          simp only [List.mem_cons, List.mem_append] at h
          rcases h with h | h | h
          · exact absurd h (by simp)
          · exact HbP _ e.url e.depth u d h
          · exact ih _ u d h
      next hc => intro h; exact absurd h (by simp)

end CrawlInvariants

/-! ## Concrete oracles for witness runs -/

/-- A concrete server-scraper oracle: every fetch returns the page
`"LISTING"`, whose only anchor is a `Read more` link to
`https://ex.com/post/alpha`; URL resolution is the identity and both URLs
parse to the hostname `ex.com`. -/
def testWorld : ServerWorld :=
  { fetchHtml := fun _ => some "LISTING"
    parseAnchors := fun _ => some
      [{ href := some "https://ex.com/post/alpha", text := some "Read more" }]
    parseDoc := fun _ => none
    resolve := fun href _ => some href
    hostOf := fun u =>
      if u = "https://ex.com/blog" ∨ u = "https://ex.com/post/alpha" then some "ex.com"
      else none
    authorOf := fun _ => none }

/-- A crawl configuration with `maxDepth = 0`, seeded at the listing page
`https://ex.com/blog`. -/
def testCfg : Config :=
  { targetUrl := "https://ex.com/blog", maxPages := 5, maxDepth := 0,
    domain := "ex.com" }

/-- The same configuration with `maxDepth = 1`. -/
def testCfgDepth1 : Config :=
  { targetUrl := "https://ex.com/blog", maxPages := 5, maxDepth := 1,
    domain := "ex.com" }

/-- A concrete browser-engine oracle: the direct fetch returns a non-2xx
response, the first proxy returns a short string body, the second proxy
returns a 101-character body, the third is unreachable. -/
def testEngineWorld : EngineWorld :=
  { direct := fun _ => DirectOutcome.notOk
    proxy := fun p _ =>
      if p = "https://api.allorigins.win/get?url=" then ProxyOutcome.okString "short"
      else if p = "https://corsproxy.io/?" then
        ProxyOutcome.okString (String.mk (List.replicate 101 'a'))
      else ProxyOutcome.netErr
    hrefs := fun _ => []
    dataUrls := fun _ => []
    resolve := fun href _ => some href
    hostOf := fun _ => some "ex.com"
    cleanedMarkdown := fun _ => ""
    authorOf := fun _ => none }

/-! ## Claim C1 — each URL is dequeued-and-processed at most once -/

/-- C1: in every crawl run of either scraper, each URL passes the
post-dequeue visited/depth check (and is therefore fetched and processed)
at most once: the visited check immediately after the dequeue, together
with the monotone visited set, rules out reprocessing, including
self-links and mutually linking cycles. -/
theorem claim1_processed_at_most_once (w : ServerWorld) (ew : EngineWorld)
    (cfg : Config) (fuel : Nat) (url : String) :
    (processedUrls (serverCrawl w cfg fuel).2).count url ≤ 1 ∧
      (processedUrls (engineCrawl ew cfg fuel).2).count url ≤ 1 := by
  constructor
  · exact List.nodup_iff_count_le_one.mp
      (crawlRun_fresh_nodup (serverBody w cfg) (min cfg.maxPages 100) cfg.maxDepth
        (serverBody_visited w cfg) (serverBody_noProcessed w cfg) fuel (initState cfg)).2 url
  · exact List.nodup_iff_count_le_one.mp
      (crawlRun_fresh_nodup (engineBody ew cfg) (min cfg.maxPages 1000) cfg.maxDepth
        (engineBody_visited ew cfg) (engineBody_noProcessed ew cfg) fuel (initState cfg)).2 url

/-! ## Claim C2 — depth bound and page cap -/

/-- C2 counterexample: the claim says every `FrontierEntry` ever created
has `depth ≤ maxDepth`.  With `maxDepth = 0`, the server scraper
processes the seed listing page and creates a frontier entry of depth 1
for the harvested article link, so an entry with depth `1 > maxDepth` is
created. -/
theorem claim2_counterexample :
    Event.created "https://ex.com/post/alpha" 1 ∈ (serverCrawl testWorld testCfg 2).2 ∧
      testCfg.maxDepth < 1 := by
  constructor
  · decide
  · decide

/-- C2 amended: every successfully dequeued entry (one that passes the
visited/depth checks and is processed) has depth at most `maxDepth`, and
the total number of successful dequeues never exceeds `maxPages`; created
entries may exceed `maxDepth`. -/
theorem claim2_depth_and_cap (w : ServerWorld) (ew : EngineWorld)
    (cfg : Config) (fuel : Nat) :
    (∀ u d, Event.processed u d ∈ (serverCrawl w cfg fuel).2 → d ≤ cfg.maxDepth) ∧
      (processedUrls (serverCrawl w cfg fuel).2).length ≤ cfg.maxPages ∧
      (∀ u d, Event.processed u d ∈ (engineCrawl ew cfg fuel).2 → d ≤ cfg.maxDepth) ∧
      (processedUrls (engineCrawl ew cfg fuel).2).length ≤ cfg.maxPages := by
  refine ⟨?_, ?_, ?_, ?_⟩
  · intro u d h
    exact crawlRun_processed_depth (serverBody w cfg) (min cfg.maxPages 100) cfg.maxDepth
      (serverBody_noProcessed w cfg) fuel (initState cfg) u d h
  · have h1 := crawlRun_processed_eq (serverBody w cfg) (min cfg.maxPages 100) cfg.maxDepth
      (serverBody_processed w cfg) (serverBody_noProcessed w cfg) fuel (initState cfg)
    have h2 := crawlRun_cap (serverBody w cfg) (min cfg.maxPages 100) cfg.maxDepth
      (serverBody_processed w cfg) fuel (initState cfg) (Nat.zero_le _)
    have h3 : (initState cfg).processed = 0 := rfl
    have h4 : min cfg.maxPages 100 ≤ cfg.maxPages := Nat.min_le_left _ _
    simp only [serverCrawl]
    omega
  · intro u d h
    exact crawlRun_processed_depth (engineBody ew cfg) (min cfg.maxPages 1000) cfg.maxDepth
      (engineBody_noProcessed ew cfg) fuel (initState cfg) u d h
  · have h1 := crawlRun_processed_eq (engineBody ew cfg) (min cfg.maxPages 1000) cfg.maxDepth
      (engineBody_processed ew cfg) (engineBody_noProcessed ew cfg) fuel (initState cfg)
    have h2 := crawlRun_cap (engineBody ew cfg) (min cfg.maxPages 1000) cfg.maxDepth
      (engineBody_processed ew cfg) fuel (initState cfg) (Nat.zero_le _)
    have h3 : (initState cfg).processed = 0 := rfl
    have h4 : min cfg.maxPages 1000 ≤ cfg.maxPages := Nat.min_le_left _ _
    simp only [engineCrawl]
    omega

/-- C2 witness: a concrete run in which the seed is processed at depth 0,
within the depth bound. -/
theorem claim2_witness :
    Event.processed "https://ex.com/blog" 0 ∈ (serverCrawl testWorld testCfg 2).2 ∧
      0 ≤ testCfg.maxDepth :=
  ⟨by decide,
    (claim2_depth_and_cap testWorld testEngineWorld testCfg 2).1 "https://ex.com/blog" 0
      (by decide)⟩

/-! ## Claim C3 — domain scoping of enqueued links -/

/-- C3: every frontier entry created for a harvested link has a hostname
that equals the seed's hostname or is a subdomain of it (ends with `"."`
followed by the seed hostname).  The server scraper only accepts exact
hostname matches; the browser engine accepts exact matches and
subdomains. -/
theorem claim3_domain_scoping (w : ServerWorld) (ew : EngineWorld)
    (cfg : Config) (fuel : Nat) (u : String) (d : Nat) :
    (Event.created u d ∈ (serverCrawl w cfg fuel).2 →
      ∃ hn, w.hostOf u = some hn ∧
        (hn = cfg.domain ∨ strEndsWith hn ("." ++ cfg.domain) = true)) ∧
    (Event.created u d ∈ (engineCrawl ew cfg fuel).2 →
      ∃ hn, ew.hostOf u = some hn ∧
        (hn = cfg.domain ∨ strEndsWith hn ("." ++ cfg.domain) = true)) := by
  constructor
  · intro h
    have h2 := crawlRun_created (serverBody w cfg) (min cfg.maxPages 100) cfg.maxDepth
      (fun u2 _ => w.hostOf u2 = some cfg.domain)
      (fun _ _ _ _ _ hh => (serverBody_created hh).2) fuel (initState cfg) u d h
    exact ⟨cfg.domain, h2, Or.inl rfl⟩
  · intro h
    have h2 := crawlRun_created (engineBody ew cfg) (min cfg.maxPages 1000) cfg.maxDepth
      (fun u2 _ => isSameDomain ew.hostOf cfg.domain u2 = true)
      (fun _ _ _ _ _ hh => engineBody_created hh) fuel (initState cfg) u d h
    exact isSameDomain_elim h2

/-- C3 witness: the article link enqueued in the concrete run parses to
the seed hostname `ex.com`. -/
theorem claim3_witness :
    ∃ hn, testWorld.hostOf "https://ex.com/post/alpha" = some hn ∧
      (hn = testCfg.domain ∨ strEndsWith hn ("." ++ testCfg.domain) = true) :=
  (claim3_domain_scoping testWorld testEngineWorld testCfg 2
    "https://ex.com/post/alpha" 1).1 (by decide)

/-! ## Claim C10 — listing links are enqueued at depth exactly 1 -/

/-- C10: in the server scraper every frontier entry created for a link
harvested from a listing page has depth exactly 1, independent of the
listing page's own depth; consequently such entries pass the depth check
whenever `maxDepth ≥ 1`. -/
theorem claim10_listing_depth_one (w : ServerWorld) (cfg : Config)
    (fuel : Nat) (u : String) (d : Nat)
    (h : Event.created u d ∈ (serverCrawl w cfg fuel).2) :
    d = 1 ∧ (1 ≤ cfg.maxDepth → ¬ d > cfg.maxDepth) := by
  have h2 := crawlRun_created (serverBody w cfg) (min cfg.maxPages 100) cfg.maxDepth
    (fun _ d2 => d2 = 1)
    (fun _ _ _ _ _ hh => (serverBody_created hh).1) fuel (initState cfg) u d h
  exact ⟨h2, fun hmd => by omega⟩

/-- C10 witness: with `maxDepth = 1`, the harvested article link is
created at depth 1 and passes the depth check. -/
theorem claim10_witness :
    1 = 1 ∧ (1 ≤ testCfgDepth1.maxDepth → ¬ 1 > testCfgDepth1.maxDepth) :=
  claim10_listing_depth_one testWorld testCfgDepth1 2 "https://ex.com/post/alpha" 1
    (by decide)

/-! ## Claim C4 — content-type classification is an ordered priority list -/

/-- C4: `detectContentType` is exactly first-match-wins evaluation of the
fixed ordered rule list (blog, documentation, article, guide, transcript,
podcast_transcript, default `other`) over the lowercased title, content
and URL; in particular any input matching both the blog rule and the
guide rule classifies as `blog`. -/
theorem claim4_contentType_priority :
    (∀ title content url, detectContentType title content url =
      detectContentTypeSpec title content url) ∧
    (∀ title content url,
      (strContains (strToLower url) "/blog/" || strContains (strToLower title) "blog") = true →
      (strContains (strToLower url) "/guide/" || strContains (strToLower title) "guide") = true →
      detectContentType title content url = "blog") := by
  constructor
  · intro title content url
    rfl
  · intro title content url hb _hg
    simp only [detectContentType, hb, if_true]

/-- C4 witness: a title containing both `blog` and `guide` classifies as
`blog`. -/
theorem claim4_witness :
    detectContentType "A blog guide" "" "https://ex.com/x" = "blog" :=
  claim4_contentType_priority.2 "A blog guide" "" "https://ex.com/x"
    (by decide) (by decide)

/-! ## Claim C5 — the identity hash is the reference rolling hash -/

/-- C5: `generateUserId` (the `((hash << 5) - hash) + char; hash & hash`
loop) agrees with the reference definition `deriveIdentitySpec`
(`hash * 31 + charCode` truncated to a signed 32-bit integer at each
step, rendered as `user_` plus the absolute value in decimal), and it is
a pure function: equal author strings yield equal identity strings. -/
theorem claim5_hash_reference (author : String) :
    generateUserId author = deriveIdentitySpec author ∧
      generateUserId author = generateUserId author := by
  refine ⟨?_, rfl⟩
  unfold generateUserId deriveIdentitySpec
  have hfun : (fun (h : Int) (c : Char) => jsHashStep h c.toNat) =
      (fun (h : Int) (c : Char) => specHashStep h c.toNat) := by
    funext h c
    exact jsHashStep_eq_specHashStep h c.toNat
  rw [hfun]

/-! ## Claim C6 — fetch fallback chain of the browser engine -/

theorem firstProxyHtml_none {w : EngineWorld} {url : String} {ps : List String}
    (h : ∀ p ∈ ps, proxyHtml? w url p = none) :
    firstProxyHtml w url ps = none := by
  induction ps with
  | nil => rfl
  | cons p rest ih =>
    simp only [firstProxyHtml, h p (List.mem_cons_self p rest)]
    exact ih (fun q hq => h q (List.mem_cons_of_mem _ hq))

theorem firstProxyHtml_first {w : EngineWorld} {url : String}
    {l1 l2 : List String} {p bodyStr : String}
    (h1 : ∀ q ∈ l1, proxyHtml? w url q = none)
    (hp : proxyHtml? w url p = some bodyStr) :
    firstProxyHtml w url (l1 ++ p :: l2) = some bodyStr := by
  induction l1 with
  | nil => simp only [List.nil_append, firstProxyHtml, hp]
  | cons q rest ih =>
    simp only [List.cons_append, firstProxyHtml, h1 q (List.mem_cons_self _ _)]
    exact ih (fun r hr => h1 r (List.mem_cons_of_mem _ hr))

/-- C6: the fetch strategy of `ScrapingEngine.scrapePage`.  (1) A 2xx
direct fetch is used as-is and no proxy is consulted.  (2) A proxy
attempt is usable exactly when its response is 2xx with a string body
longer than 100 characters.  (3) When the direct fetch is not 2xx (or
throws), the first usable proxy in the fixed order wins.  (4) When the
direct fetch and every proxy fail, the crawl substitutes the demo
placeholder for the seed (depth 0 with no accumulated results) and
otherwise the page fails with a thrown error. -/
theorem claim6_fetch_chain (w : EngineWorld) (url : String) (depth : Nat)
    (resultsEmpty : Bool) :
    (∀ html, w.direct url = DirectOutcome.ok html →
      resolveFetch w url depth resultsEmpty = FetchResolution.gotHtml html) ∧
    (∀ proxy bodyStr, proxyHtml? w url proxy = some bodyStr ↔
      w.proxy proxy url = ProxyOutcome.okString bodyStr ∧ bodyStr.length > 100) ∧
    ((∀ html, w.direct url ≠ DirectOutcome.ok html) →
      ∀ l1 p l2 bodyStr, corsProxies = l1 ++ p :: l2 →
        (∀ q ∈ l1, proxyHtml? w url q = none) →
        proxyHtml? w url p = some bodyStr →
        resolveFetch w url depth resultsEmpty = FetchResolution.gotHtml bodyStr) ∧
    ((∀ html, w.direct url ≠ DirectOutcome.ok html) →
      (∀ p ∈ corsProxies, proxyHtml? w url p = none) →
      resolveFetch w url depth resultsEmpty =
        (if depth = 0 ∧ resultsEmpty = true then FetchResolution.demo
         else FetchResolution.failed)) := by
  refine ⟨?_, ?_, ?_, ?_⟩
  · intro html hok
    unfold resolveFetch
    rw [hok]
  · intro proxy bodyStr
    constructor
    · intro h
      unfold proxyHtml? at h
      split at h
      next b hb =>
        split at h
        next hlen =>
          injection h with h
          subst h
          exact ⟨hb, hlen⟩
        next => exact absurd h (by simp)
      next => exact absurd h (by simp)
    · intro ⟨hb, hlen⟩
      unfold proxyHtml?
      rw [hb]
      simp only [hlen, if_true]
  · intro hno l1 p l2 bodyStr hsplit h1 hp
    unfold resolveFetch
    split
    next html heq => exact absurd heq (hno html)
    next =>
      rw [hsplit, firstProxyHtml_first h1 hp]
  · intro hno hall
    unfold resolveFetch
    split
    next html heq => exact absurd heq (hno html)
    next =>
      rw [firstProxyHtml_none hall]

/-- C6 witness: direct fetch not 2xx, first proxy body too short, second
proxy usable — the second proxy's body is the result. -/
theorem claim6_witness :
    resolveFetch testEngineWorld "https://ex.com/blog" 1 false =
      FetchResolution.gotHtml (String.mk (List.replicate 101 'a')) :=
  (claim6_fetch_chain testEngineWorld "https://ex.com/blog" 1 false).2.2.1
    (fun html h => by simp [testEngineWorld] at h)
    ["https://api.allorigins.win/get?url="] "https://corsproxy.io/?"
    ["https://cors-anywhere.herokuapp.com/"]
    (String.mk (List.replicate 101 'a')) (by decide)
    (by intro q hq; simp only [List.mem_singleton] at hq; subst hq; decide)
    (by decide)

/-! ## Claim C7 — content-length threshold and cap -/

theorem strTake_length (s : String) (n : Nat) :
    (strTake s n).length = min n s.length :=
  List.length_take n s.data

/-- A browser-engine oracle whose cleaning chain yields 10001 characters
of content for every page. -/
def capWorld : EngineWorld :=
  { direct := fun _ => DirectOutcome.notOk
    proxy := fun _ _ => ProxyOutcome.netErr
    hrefs := fun _ => []
    dataUrls := fun _ => []
    resolve := fun _ _ => none
    hostOf := fun _ => none
    cleanedMarkdown := fun _ => String.mk (List.replicate 10001 'a')
    authorOf := fun _ => none }

/-- A browser-engine oracle whose cleaning chain yields 50 characters of
content for every page. -/
def shortWorld : EngineWorld :=
  { direct := fun _ => DirectOutcome.notOk
    proxy := fun _ _ => ProxyOutcome.netErr
    hrefs := fun _ => []
    dataUrls := fun _ => []
    resolve := fun _ _ => none
    hostOf := fun _ => none
    cleanedMarkdown := fun _ => String.mk (List.replicate 50 'a')
    authorOf := fun _ => none }

/-- C7 counterexample: the claim says every produced item's content is at
most the fixed maximum cap (10000, the `slice(0, 10000)` of the server
extractor).  The browser engine's `extractContent` applies no cap: a page
whose cleaned content is 10001 characters yields an item with content of
length 10001. -/
theorem claim7_counterexample :
    (extractContentEngine capWorld "<title>A</title>" "https://ex.com/blog/x").map
        (fun item => item.content.length) = some 10001 ∧
      ¬ (10001 ≤ 10000) := by
  have hlen : (String.mk (List.replicate 10001 'a')).length = 10001 := by
    show (List.replicate 10001 'a').length = 10001
    rw [List.length_replicate]
  constructor
  · simp only [extractContentEngine, capWorld]
    rw [if_neg (by rw [hlen]; omega)]
    simp only [Option.map_some']
    rw [hlen]
  · omega

/-- C7 amended: both extractors return `none` whenever the cleaned
content is below their minimum-content threshold (500 characters for the
server extractor, 100 for the browser engine — in particular a 50
character page yields no item in either), and every item the *server*
extractor produces has content of length at most 10000; the browser
engine returns the cleaned content uncapped. -/
theorem claim7_length_postconditions :
    (∀ (w : ServerWorld) (html url : String) (doc : PageDoc),
      w.parseDoc html = some doc → (serverContentOf doc).length < 500 →
      extractContentServer w html url = none) ∧
    (∀ (w : ServerWorld) (html url : String) (item : ScrapedItem),
      extractContentServer w html url = some item → item.content.length ≤ 10000) ∧
    (∀ (w : EngineWorld) (html url : String),
      (w.cleanedMarkdown html).length < 100 → extractContentEngine w html url = none) ∧
    (∀ (w : EngineWorld) (html url : String) (item : ScrapedItem),
      extractContentEngine w html url = some item →
      item.content = w.cleanedMarkdown html) := by
  refine ⟨?_, ?_, ?_, ?_⟩
  · intro w html url doc hdoc hlen
    simp only [extractContentServer, hdoc]
    rw [if_pos hlen]
  · intro w html url item h
    simp only [extractContentServer] at h
    split at h
    · exact absurd h (by simp)
    next doc hdoc =>
      split at h
      · exact absurd h (by simp)
      next hlen =>
        injection h with h
        subst h
        simp only [strTake_length]
        exact Nat.min_le_left _ _
  · intro w html url hlen
    simp only [extractContentEngine]
    rw [if_pos hlen]
  · intro w html url item h
    simp only [extractContentEngine] at h
    split at h
    · exact absurd h (by simp)
    next hlen =>
      injection h with h
      subst h
      rfl

/-- C7 witness: the claimed 50-character scenario — the browser engine
rejects a page whose cleaned content has 50 characters. -/
theorem claim7_witness :
    extractContentEngine shortWorld "<title>A</title>" "https://ex.com/x" = none :=
  claim7_length_postconditions.2.2.1 shortWorld "<title>A</title>" "https://ex.com/x"
    (by decide)

/-! ## Claim C8 — priority enqueue of listing-page article links -/

/-- C8: when the server scraper processes a listing page whose harvested
article links are three not-yet-visited URLs, exactly three entries are
pushed at the front of the frontier, all ahead of every previously
tail-enqueued entry. -/
theorem claim8_priority_enqueue (w : ServerWorld) (cfg : Config) (s : CrawlState)
    (url html : String) (d : Nat) (l1 l2 l3 : String)
    (hf : w.fetchHtml url = some html)
    (hl : isBlogListingPage url = true)
    (he : extractArticleLinks w cfg.domain html url = [l1, l2, l3])
    (h1 : l1 ∉ s.visited) (h2 : l2 ∉ s.visited) (h3 : l3 ∉ s.visited) :
    (serverBody w cfg s url d).1.queue =
      { url := l3, depth := 1 } :: { url := l2, depth := 1 } ::
        { url := l1, depth := 1 } :: s.queue := by
  simp [serverBody, hf, hl, he, serverPush, h1, h2, h3]

/-- A concrete listing-page oracle with three `Read more` anchors. -/
def listWorld : ServerWorld :=
  { fetchHtml := fun _ => some "LIST"
    parseAnchors := fun _ => some
      [{ href := some "https://ex.com/post/alpha", text := some "Read more" },
       { href := some "https://ex.com/post/beta", text := some "Read more" },
       { href := some "https://ex.com/post/gamma", text := some "Read more" }]
    parseDoc := fun _ => none
    resolve := fun href _ => some href
    hostOf := fun _ => some "ex.com"
    authorOf := fun _ => none }

/-- C8 witness: three `Read more` anchors on `/blog` are priority-pushed
ahead of the previously tail-enqueued entry. -/
theorem claim8_witness :
    (serverBody listWorld testCfg
        { queue := [{ url := "https://ex.com/old", depth := 1 }], visited := [],
          results := [], processed := 1 } "https://ex.com/blog" 0).1.queue =
      [{ url := "https://ex.com/post/gamma", depth := 1 },
       { url := "https://ex.com/post/beta", depth := 1 },
       { url := "https://ex.com/post/alpha", depth := 1 },
       { url := "https://ex.com/old", depth := 1 }] :=
  claim8_priority_enqueue listWorld testCfg
    { queue := [{ url := "https://ex.com/old", depth := 1 }], visited := [],
      results := [], processed := 1 } "https://ex.com/blog" "LIST" 0
    "https://ex.com/post/alpha" "https://ex.com/post/beta" "https://ex.com/post/gamma"
    rfl (by decide) (by decide) (by decide) (by decide) (by decide)

/-! ## Claim C9 — title extraction waterfall -/

/-- Modelled from the spec: the document-title fallback of the title
waterfall. -/
def titleElementFallback (titleText : Option String) : String :=
  match titleText with
  | some t => if jsTrim t ≠ "" then jsTrim t else "Untitled"
  | none => "Untitled"

/-- Modelled from the spec: the claimed title waterfall — the trimmed
text of the first `<h1>` when present and non-empty, else the trimmed
document title text, else `"Untitled"`. -/
def titleWaterfall (h1Text titleText : Option String) : String :=
  match h1Text with
  | some h => if jsTrim h ≠ "" then jsTrim h else titleElementFallback titleText
  | none => titleElementFallback titleText

/-- A browser-engine oracle producing 100 characters of content, used on
a page that carries both an `<h1>` and a `<title>`. -/
def h1World : EngineWorld :=
  { direct := fun _ => DirectOutcome.notOk
    proxy := fun _ _ => ProxyOutcome.netErr
    hrefs := fun _ => []
    dataUrls := fun _ => []
    resolve := fun _ _ => none
    hostOf := fun _ => none
    cleanedMarkdown := fun _ => String.mk (List.replicate 100 'b')
    authorOf := fun _ => none }

/-- A page whose `<h1>` text is `Heading` and whose `<title>` text is
`T`. -/
def h1Html : String := "<h1>Heading</h1><title>T</title>"

/-- C9 counterexample: the claim says every produced item's title follows
the h1-first waterfall.  The browser engine reads only the `<title>`
element: on a page with `<h1>Heading</h1>` and `<title>T</title>` it
produces the title `T`, while the claimed waterfall demands `Heading`. -/
theorem claim9_counterexample :
    strContains h1Html "<h1>Heading</h1>" = true ∧
      (extractContentEngine h1World h1Html "https://ex.com/blog/x").map
        (fun item => item.title) = some "T" ∧
      titleWaterfall (some "Heading") (some "T") = "Heading" ∧
      ("T" : String) ≠ "Heading" := by
  exact ⟨by decide, by decide, by decide, by decide⟩

/-- C9 amended: the server extractor's title follows the claimed
waterfall (trimmed `<h1>` when present and non-empty, else the trimmed
`<title>` text, else `Untitled`); the browser engine's title is the
trimmed text of the first `<title>` match only (`Untitled` only when no
`<title>` matches), ignoring any `<h1>`. -/
theorem claim9_title_waterfall :
    (∀ doc : PageDoc, extractTitleServer doc = titleWaterfall doc.h1Text doc.titleText) ∧
    (∀ (w : EngineWorld) (html url : String) (item : ScrapedItem),
      extractContentEngine w html url = some item → item.title = engineTitle html) := by
  constructor
  · intro doc
    unfold extractTitleServer titleWaterfall titleElementFallback
    cases doc.h1Text with
    | none =>
      cases doc.titleText with
      | none => rfl
      | some t =>
        by_cases ht : jsTrim t = "" <;> simp [ht]
    | some h =>
      cases doc.titleText with
      | none =>
        by_cases hh : jsTrim h = "" <;> simp [hh]
      | some t =>
        by_cases hh : jsTrim h = ""
        · by_cases ht : jsTrim t = "" <;> simp [hh, ht]
        · simp [hh]
  · intro w html url item h
    simp only [extractContentEngine] at h
    split at h
    · exact absurd h (by simp)
    next hlen =>
      injection h with h
      subst h
      rfl

/-- C9 witness: on the concrete page the produced item's title is the
trimmed `<title>` text. -/
theorem claim9_witness :
    ({ title := "T", content := String.mk (List.replicate 100 'b'),
       content_type := "blog", source_url := "https://ex.com/blog/x",
       author := none, user_id := none } : ScrapedItem).title = engineTitle h1Html :=
  claim9_title_waterfall.2 h1World h1Html "https://ex.com/blog/x" _ (by decide)

end OGTool
